import Mathlib

/-!
# Verification of the tree normalization and repair engine

This file gives a shallow embedding, in Lean 4, of the JSON-tree
normalization pipeline implemented in `src/jsp-to-json/index.js`, together
with the bounded tool-call executor of `src/utils/common.js` (shown in
`src/README.md`), and proves or refutes the specified properties.

Modelling conventions (the source is JavaScript operating on parsed JSON):
* A JSON element node is modelled by `Node` with the fields the passes read
  or write: `tagName`, `attributes`, `children`, `condition`, `isComponent`,
  and `params` (the synthetic wrapper object `{ params: ... }` created by the
  object-consolidation pass).  String fields that may be absent in JS are
  modelled as `""` (absent), which no pass distinguishes from a present empty
  string; `attributes` and `children` model an absent field as `[]`
  (an absent and an empty JS object/array flow identically through every
  pass, since every access is guarded by truthiness or `Array.isArray`).
* A JS object used as a dictionary is modelled as an association list in key
  insertion order, which is exactly the enumeration order of `for ... in`
  for the non-numeric keys used here.  Assigning an existing key keeps its
  position; assigning a fresh key appends; see `jsSet` / `jsDelete` / `jsGet`.
* Attribute values are strings or (for `style`) string-to-string maps,
  `AttrVal`.  Where the source applies JS string coercion to an object value
  (e.g. `String(value)` inside `addPxIfNeeded`), the model coerces a map
  value to its JS string form `"[object Object]"` (`AttrVal.asString`).
* The in-place mutation of the source is rendered as a pure rewrite: the
  function returns the node that afterwards stands where its argument stood.
-/

/-- An attribute value: a plain string, or (for `style`) a CSS-in-JS map
from camel-cased property names to string values, in insertion order. -/
inductive AttrVal where
  | str (s : String)
  | style (m : List (String × String))
deriving DecidableEq, Repr

/-- JS string coercion of an attribute value (`String(v)`): a plain object
coerces to `"[object Object]"`. -/
def AttrVal.asString : AttrVal → String
  | .str s => s
  | .style _ => "[object Object]"

/-- JS truthiness of an attribute value: the empty string is falsy, every
other string and every object is truthy. -/
def AttrVal.truthy : AttrVal → Bool
  | .str s => s ≠ ""
  | .style _ => true

/-- A node of the JSON tree the passes operate on (§3 of the spec).
`tagName` and `condition` model an absent field as `""`; `attributes` and
`children` model an absent field as `[]`; `params` is the payload of the
synthetic `{ params: ... }` wrapper produced by object consolidation
(`none` for ordinary nodes). -/
inductive Node where
  | mk (tagName : String) (attributes : List (String × AttrVal))
       (children : List Node) (condition : String) (isComponent : Bool)
       (params : Option (List (String × AttrVal)))

def Node.tagName : Node → String
  | .mk t _ _ _ _ _ => t

def Node.attributes : Node → List (String × AttrVal)
  | .mk _ a _ _ _ _ => a

def Node.children : Node → List Node
  | .mk _ _ c _ _ _ => c

def Node.condition : Node → String
  | .mk _ _ _ d _ _ => d

def Node.isComponent : Node → Bool
  | .mk _ _ _ _ i _ => i

def Node.params : Node → Option (List (String × AttrVal))
  | .mk _ _ _ _ _ p => p

mutual
def decEqNode (a b : Node) : Decidable (a = b) :=
  match a, b with
  | .mk t1 a1 c1 d1 i1 p1, .mk t2 a2 c2 d2 i2 p2 =>
    if h1 : t1 = t2 then
      if h2 : a1 = a2 then
        match decEqNodes c1 c2 with
        | isTrue h3 =>
          if h4 : d1 = d2 then
            if h5 : i1 = i2 then
              if h6 : p1 = p2 then isTrue (by rw [h1, h2, h3, h4, h5, h6])
              else isFalse (by intro h; injection h; contradiction)
            else isFalse (by intro h; injection h; contradiction)
          else isFalse (by intro h; injection h; contradiction)
        | isFalse h3 => isFalse (by intro h; injection h; contradiction)
      else isFalse (by intro h; injection h; contradiction)
    else isFalse (by intro h; injection h; contradiction)

def decEqNodes (as bs : List Node) : Decidable (as = bs) :=
  match as, bs with
  | [], [] => isTrue rfl
  | [], _ :: _ => isFalse (by intro h; exact List.noConfusion h)
  | _ :: _, [] => isFalse (by intro h; exact List.noConfusion h)
  | x :: xs, y :: ys =>
    match decEqNode x y, decEqNodes xs ys with
    | isTrue h1, isTrue h2 => isTrue (by rw [h1, h2])
    | isFalse h1, _ => isFalse (by intro h; injection h; contradiction)
    | _, isFalse h2 => isFalse (by intro h; injection h; contradiction)
end

instance : DecidableEq Node := decEqNode

/-- Read a key of a JS object (first binding of the key). -/
def jsGet {β : Type} (m : List (String × β)) (k : String) : Option β :=
  match m.find? (fun p => p.1 = k) with
  | some p => some p.2
  | none => none

/-- JS property assignment `m[k] = v`: an existing key keeps its position
and gets the new value; a fresh key is appended. -/
def jsSet {β : Type} (m : List (String × β)) (k : String) (v : β) :
    List (String × β) :=
  if m.any (fun p => p.1 = k) then
    m.map (fun p => if p.1 = k then (k, v) else p)
  else m ++ [(k, v)]

/-- JS `delete m[k]`. -/
def jsDelete {β : Type} (m : List (String × β)) (k : String) :
    List (String × β) :=
  m.filter (fun p => ¬ p.1 = k)

/-! ## §4.6 Filter & Flatten pass (`processJsonElements`) -/

/-- The removable set of `processJsonElements` (`tagsToRemove`). -/
def tagsToRemove : List String :=
  ["meta", "title", "link", "script", "noscript", "style"]

/-- The wrapper set of `processJsonElements` (`tagsToUnwrap`). -/
def tagsToUnwrap : List String := ["html", "head", "body"]

/-- `processJsonElements` (src/jsp-to-json/index.js:327-352): drop removable
nodes with their subtrees; splice the recursively processed children of
wrapper nodes in place; otherwise emit a shallow copy with recursively
processed children (or the node itself when its children list is empty). -/
def processJsonElements : List Node → List Node
  | [] => []
  | (Node.mk t a c cond ic pr) :: rest =>
    (if t ∈ tagsToRemove then []
     else if t ∈ tagsToUnwrap then processJsonElements c
     else if c ≠ [] then [Node.mk t a (processJsonElements c) cond ic pr]
     else [Node.mk t a c cond ic pr]) ++ processJsonElements rest

/-- The nine tag names that must not survive the Filter & Flatten pass. -/
def filteredTags : List String := tagsToRemove ++ tagsToUnwrap

mutual
/-- No node of this subtree, at any depth, carries a filtered tag name. -/
def nodeClean : Node → Bool
  | .mk t _ c _ _ _ => decide (t ∉ filteredTags) && nodesClean c

/-- `nodeClean` over a sibling list. -/
def nodesClean : List Node → Bool
  | [] => true
  | n :: ns => nodeClean n && nodesClean ns
end

/-! ## §4.1 Attribute Lowering pass (`traverseAndApplyPresentationalAttributes`) -/

/-- `addPxIfNeeded` (index.js:93-98): append `px` to a purely numeric value
(`/^[0-9]+$/`), otherwise pass the value through. -/
def addPxIfNeeded (v : String) : String :=
  if v ≠ "" ∧ v.all Char.isDigit then v ++ "px" else v

/-- JS `s.split(sep)` for a one-character separator, over the character
list: every occurrence splits, empty pieces are kept, the empty string
yields one empty piece. -/
def splitChars (sep : Char) : List Char → List (List Char)
  | [] => [[]]
  | c :: rest =>
    let r := splitChars sep rest
    if c = sep then [] :: r
    else
      match r with
      | h :: t => (c :: h) :: t
      | [] => [[c]]

/-- JS `s.split(sep)` for a one-character separator. -/
def jsSplit (s : String) (sep : Char) : List String :=
  (splitChars sep s.data).map String.mk

/-- JS `s.trim()`: strip leading and trailing whitespace (the ASCII
whitespace characters; JS also strips some further Unicode space, which no
input of these passes contains). -/
def jsTrim (s : String) : String :=
  String.mk
    (((s.data.dropWhile Char.isWhitespace).reverse.dropWhile
        Char.isWhitespace).reverse)

/-- The global replacement of pattern `-(\w)` by the upper-cased captured
character, as `property.trim().replace(..., (_, c) => c.toUpperCase())`
does, over the character list. -/
def camelizeChars : List Char → List Char
  | [] => []
  | '-' :: c :: rest =>
    if c.isAlphanum ∨ c = '_' then c.toUpper :: camelizeChars rest
    else '-' :: camelizeChars (c :: rest)
  | c :: rest => c :: camelizeChars rest

def camelize (s : String) : String := String.mk (camelizeChars s.data)

/-- `parseCssStringToObject` (index.js:69-84): split on `;`, keep
declarations whose trimmed text is non-empty, split each on `:`, keep the
first two parts when both are non-empty, camel-case the trimmed property
name and record the trimmed value. -/
def parseCssStringToObject (cssText : String) : List (String × String) :=
  (jsSplit cssText ';').foldl
    (fun st decl =>
      if jsTrim decl ≠ "" then
        match jsSplit decl ':' with
        | p :: v :: _ =>
          if p ≠ "" ∧ v ≠ "" then jsSet st (camelize (jsTrim p)) (jsTrim v)
          else st
        | _ => st
      else st) []

/-- The keys of `attributeToStyleMap` (index.js:107-129); these and only
these attributes are pushed onto `attributesToDelete`. -/
def isMappedAttr (k : String) : Bool :=
  k ∈ ["align", "valign", "bgcolor", "background", "width", "height",
       "border", "nowrap", "cellspacing", "color", "face", "size"]

/-- Effect of one mapped attribute on `styleObject` (index.js:158-180).
For an entry with a `handler`, the source calls
`mapping.handler(attrValue, styleObject)` and discards the returned value
(index.js:165-167); of the handlers only `cellspacing`'s writes to
`styleObject` itself, so `background`, `width`, `height`, `border` and
`size` leave the style untouched.  Entries without a handler assign
`styleObject[mapping.cssProperty]` the raw value (`nowrap` its
`fixedValue`).  Keys outside the table leave the style unchanged. -/
def lowerAttr (k : String) (w : AttrVal) (st : List (String × String)) :
    List (String × String) :=
  if k = "align" then jsSet st "textAlign" w.asString
  else if k = "valign" then jsSet st "verticalAlign" w.asString
  else if k = "bgcolor" then jsSet st "backgroundColor" w.asString
  else if k = "nowrap" then jsSet st "whiteSpace" "nowrap"
  else if k = "color" then jsSet st "color" w.asString
  else if k = "face" then jsSet st "fontFamily" w.asString
  else if k = "cellspacing" then
    jsSet (jsSet st "borderSpacing" (addPxIfNeeded w.asString))
      "borderCollapse" "separate"
  else st

/-- The style-object seed (index.js:145-154): an existing `style` value is
parsed (string form) or shallow-copied (map form) before any legacy
attribute is folded in. -/
def styleOfAttrs (attrs : List (String × AttrVal)) : List (String × String) :=
  match jsGet attrs "style" with
  | some (.str s) => parseCssStringToObject s
  | some (.style m) => m
  | none => []

/-- The style keys that folding one attribute can write (per `lowerAttr`;
the discarded-handler attributes write none). -/
def ruleTargets (k : String) : List String :=
  if k = "align" then ["textAlign"]
  else if k = "valign" then ["verticalAlign"]
  else if k = "bgcolor" then ["backgroundColor"]
  else if k = "nowrap" then ["whiteSpace"]
  else if k = "color" then ["color"]
  else if k = "face" then ["fontFamily"]
  else if k = "cellspacing" then ["borderSpacing", "borderCollapse"]
  else []

/-- The style keys that folding the given attribute list can write. -/
def writtenKeys : List (String × AttrVal) → List String
  | [] => []
  | q :: rest => ruleTargets q.1 ++ writtenKeys rest

/-- The attribute rewrite of one node (index.js:145-192): seed the style
object from any existing `style`, fold every attribute through the mapping
table in key order, delete the mapped attribute keys, then store the style
object back — or delete the `style` key entirely when the object is empty. -/
def lowerAttributes (attrs : List (String × AttrVal)) :
    List (String × AttrVal) :=
  let style1 := attrs.foldl (fun st q => lowerAttr q.1 q.2 st) (styleOfAttrs attrs)
  let attrs1 := attrs.filter (fun q => ¬ isMappedAttr q.1 = true)
  if style1 ≠ [] then jsSet attrs1 "style" (.style style1)
  else jsDelete attrs1 "style"

mutual
/-- `traverseAndApplyPresentationalAttributes` (index.js:135-197) as a pure
rewrite of one node: lower this node's attributes, then recurse into every
child. -/
def traverseAndApplyPresentationalAttributes : Node → Node
  | .mk t a c cond ic pr => .mk t (lowerAttributes a) (traverseAndApplyPresentationalAttributesList c) cond ic pr

/-- The pass over a sibling array (the source's `forEach` branch). -/
def traverseAndApplyPresentationalAttributesList : List Node → List Node
  | [] => []
  | n :: ns => traverseAndApplyPresentationalAttributes n :: traverseAndApplyPresentationalAttributesList ns
end

/-- The per-node check of C5's second half: whenever the `style` key is
present after lowering it holds a non-empty style map (never an empty map,
never still a string). -/
def styleKeyOK (attrs : List (String × AttrVal)) : Bool :=
  match jsGet attrs "style" with
  | some (.style m) => m ≠ []
  | some (.str _) => false
  | none => true

mutual
/-- `styleKeyOK` at every node of a subtree. -/
def styleShapeOK : Node → Bool
  | .mk _ a c _ _ _ => styleKeyOK a && styleShapesOK c

def styleShapesOK : List Node → Bool
  | [] => true
  | n :: ns => styleShapeOK n && styleShapesOK ns
end

theorem nodesClean_append (xs ys : List Node) :
    nodesClean (xs ++ ys) = (nodesClean xs && nodesClean ys) := by
  induction xs with
  | nil => simp [nodesClean]
  | cons x xs ih => simp [nodesClean, ih, Bool.and_assoc]

/-- C1: every node emitted by `processJsonElements`, at any depth, has a tag
name outside both the removable set (`meta`, `title`, `link`, `script`,
`noscript`, `style`, dropped with their subtrees) and the wrapper set
(`html`, `head`, `body`, replaced by their recursively processed children). -/
theorem processJsonElements_clean (es : List Node) :
    nodesClean (processJsonElements es) = true := by
  induction es using processJsonElements.induct with
  | case1 => simp [processJsonElements, nodesClean]
  | case2 t a c cond ic pr rest ihc ihrest =>
    have hmem : t ∉ tagsToRemove → t ∉ tagsToUnwrap → t ∉ filteredTags := by
      intro h1 h2 h
      rcases List.mem_append.mp h with h | h
      · exact h1 h
      · exact h2 h
    by_cases h1 : t ∈ tagsToRemove
    · simp [processJsonElements, h1, nodesClean_append, ihrest, nodesClean]
    · by_cases h2 : t ∈ tagsToUnwrap
      · simp [processJsonElements, h1, h2, nodesClean_append, ihrest, ihc]
      · by_cases h3 : c = []
        · subst h3
          simp [processJsonElements, h1, h2, nodesClean_append, ihrest,
                nodesClean, nodeClean, hmem h1 h2]
        · simp [processJsonElements, h1, h2, h3, nodesClean_append, ihrest,
                nodesClean, nodeClean, hmem h1 h2, ihc]

/-- Mutual induction over the nested tree structure: a node property `P`
and a sibling-list property `Q` follow from the constructor step and the
list steps. -/
theorem node_ind {P : Node → Prop} {Q : List Node → Prop}
    (hmk : ∀ t a c cond ic pr, Q c → P (.mk t a c cond ic pr))
    (hnil : Q []) (hcons : ∀ n ns, P n → Q ns → Q (n :: ns)) :
    (∀ n, P n) ∧ (∀ ns, Q ns) := by
  have hn : ∀ n, P n := fun n => Node.rec hmk hnil hcons n
  refine ⟨hn, ?_⟩
  intro ns
  induction ns with
  | nil => exact hnil
  | cons n ns ih => exact hcons n ns (hn n) ih

/-- An entry with a different key survives a JS assignment. -/
theorem jsSet_mem {β : Type} {st : List (String × β)} {k : String} {w : β}
    {p : String} {v : β} (hmem : (p, v) ∈ st) (hne : p ≠ k) :
    (p, v) ∈ jsSet st k w := by
  unfold jsSet
  split
  · exact List.mem_map.mpr ⟨(p, v), hmem, by simp [hne]⟩
  · exact List.mem_append_left _ hmem

/-- Reading back the key just assigned. -/
theorem jsGet_jsSet_self {β : Type} (m : List (String × β)) (k : String)
    (v : β) : jsGet (jsSet m k v) k = some v := by
  induction m with
  | nil => simp [jsSet, jsGet]
  | cons q rest ih =>
    by_cases hq : q.1 = k
    · simp [jsSet, jsGet, hq]
    · by_cases hr : rest.any (fun p => p.1 = k)
      · simp only [jsSet, hr] at ih
        simp [jsSet, jsGet, hq, hr] at ih ⊢
        simpa [jsGet] using ih
      · simp only [jsSet, hr] at ih
        simp [jsSet, jsGet, hq, hr] at ih ⊢
        simpa [jsGet] using ih

/-- Reading a key just deleted. -/
theorem jsGet_jsDelete_self {β : Type} (m : List (String × β)) (k : String) :
    jsGet (jsDelete m k) k = none := by
  induction m with
  | nil => simp [jsDelete, jsGet]
  | cons q rest ih =>
    by_cases hq : q.1 = k <;>
      simp [jsDelete, jsGet, hq] at ih ⊢ <;> simpa [jsGet, jsDelete] using ih

/-- Folding one attribute never disturbs a style entry whose key is outside
that attribute's rule targets. -/
theorem lowerAttr_mem {k : String} {w : AttrVal} {st : List (String × String)}
    {p v : String} (hmem : (p, v) ∈ st) (hnt : p ∉ ruleTargets k) :
    (p, v) ∈ lowerAttr k w st := by
  simp only [lowerAttr, ruleTargets] at hnt ⊢
  split_ifs at hnt ⊢ <;> simp_all <;>
    first
      | exact jsSet_mem hmem hnt
      | exact jsSet_mem (jsSet_mem hmem hnt.1) hnt.2

/-- Folding a whole attribute list never disturbs a style entry whose key
is outside the written set. -/
theorem foldl_lowerAttr_mem (attrs : List (String × AttrVal))
    (st : List (String × String)) (p v : String) (hmem : (p, v) ∈ st)
    (hk : p ∉ writtenKeys attrs) :
    (p, v) ∈ attrs.foldl (fun st q => lowerAttr q.1 q.2 st) st := by
  induction attrs generalizing st with
  | nil => simpa using hmem
  | cons q rest ih =>
    rw [writtenKeys] at hk
    simp only [List.mem_append] at hk
    push_neg at hk
    simp only [List.foldl_cons]
    exact ih _ (lowerAttr_mem hmem hk.1) hk.2

/-- After lowering, the `style` key of a node is either absent or a
non-empty style map. -/
theorem styleKeyOK_lowerAttributes (attrs : List (String × AttrVal)) :
    styleKeyOK (lowerAttributes attrs) = true := by
  unfold lowerAttributes
  set style1 := attrs.foldl (fun st q => lowerAttr q.1 q.2 st) (styleOfAttrs attrs) with hs
  by_cases h : style1 = []
  · simp [h, styleKeyOK, jsGet_jsDelete_self]
  · simp [h, styleKeyOK, jsGet_jsSet_self]

/-- C4: evaluating the Attribute Lowering pass at the spec's own round-trip
example `{attributes: {width: "100", align: "left"}}`.  The source pushes
`width` onto `attributesToDelete` but calls its handler discarding the
returned value (index.js:165-167), so `style.width` is never written: the
output keeps only the folded `align`, refuting the claimed
`{style: {width: "100px", textAlign: "left"}}`. -/
theorem traverseAndApplyPresentationalAttributes_width_align_eval :
    traverseAndApplyPresentationalAttributes
        (.mk "div" [("width", .str "100"), ("align", .str "left")] [] "" false none)
      = .mk "div" [("style", .style [("textAlign", "left")])] [] "" false none := by
  decide

/-- C5: after the Attribute Lowering pass (1) at every node the `style` key,
when present, holds a non-empty style map — an empty style map is deleted
rather than stored — and (2) every property of a node's pre-existing
`style` (string or map form, as parsed/copied by `styleOfAttrs`) whose key
is not a target of the node's own legacy attributes survives into the final
merged style map: the existing style is merged with, not overwritten by,
the newly derived properties. -/
theorem traverseAndApplyPresentationalAttributes_style_merge :
    (∀ n : Node, styleShapeOK (traverseAndApplyPresentationalAttributes n) = true) ∧
    (∀ (n : Node) (p v : String),
      (p, v) ∈ styleOfAttrs n.attributes → p ∉ writtenKeys n.attributes →
      ∃ m, jsGet (traverseAndApplyPresentationalAttributes n).attributes "style" = some (.style m) ∧
        (p, v) ∈ m) := by
  constructor
  · refine (node_ind (P := fun n => styleShapeOK (traverseAndApplyPresentationalAttributes n) = true)
      (Q := fun ns => styleShapesOK (traverseAndApplyPresentationalAttributesList ns) = true)
      ?_ ?_ ?_).1
    · intro t a c cond ic pr hc
      simp [traverseAndApplyPresentationalAttributes, styleShapeOK, styleKeyOK_lowerAttributes, hc]
    · simp [traverseAndApplyPresentationalAttributesList, styleShapesOK]
    · intro n ns hn hns
      simp [traverseAndApplyPresentationalAttributesList, styleShapesOK, hn, hns]
  · intro n p v hmem hk
    obtain ⟨t, a, c, cond, ic, pr⟩ := n
    simp only [Node.attributes] at hmem hk
    simp only [traverseAndApplyPresentationalAttributes, Node.attributes]
    unfold lowerAttributes
    have h1 : (p, v) ∈ a.foldl (fun st q => lowerAttr q.1 q.2 st) (styleOfAttrs a) :=
      foldl_lowerAttr_mem a _ p v hmem hk
    have hne : a.foldl (fun st q => lowerAttr q.1 q.2 st) (styleOfAttrs a) ≠ [] :=
      List.ne_nil_of_mem h1
    simp only [hne, if_true, ne_eq, not_false_eq_true, if_pos]
    exact ⟨_, jsGet_jsSet_self _ _ _, h1⟩

/-- Witness for C5 at a concrete node: an existing string-form style
`color:red` survives folding of `align` (which writes only `textAlign`). -/
theorem traverseAndApplyPresentationalAttributes_style_merge_witness :
    ∃ m, jsGet (traverseAndApplyPresentationalAttributes
        (.mk "span" [("style", .str "color:red"), ("align", .str "center")]
          [] "" false none)).attributes "style" = some (.style m) ∧
      ("color", "red") ∈ m :=
  traverseAndApplyPresentationalAttributes_style_merge.2
    (.mk "span" [("style", .str "color:red"), ("align", .str "center")]
      [] "" false none) "color" "red" (by decide) (by decide)

/-! ## §4.4 Structural Table Repair pass (`traverseAndProcessTableStructure`)

The source wraps a `table`'s children into a synthesized `tbody` and then
recurses into the synthesized node (whose size equals the original node's),
so plain structural recursion does not apply.  Termination is measured by
`2 * size + flags`, where a `table` about to be wrapped and each invalid
direct child of a `tr` (about to be wrapped in a hidden `td`) contribute
budget that the synthesized wrapper nodes consume. -/

mutual
/-- Number of nodes in a subtree (attributes not counted). -/
def nSize : Node → Nat
  | .mk _ _ c _ _ _ => 1 + lSize c

def lSize : List Node → Nat
  | [] => 0
  | n :: ns => nSize n + lSize ns
end

/-- `child.tagName === 'td' || child.tagName === 'th'` (a valid `tr` child,
index.js:265). -/
def isCell (n : Node) : Bool := n.tagName = "td" ∨ n.tagName = "th"

/-- The `table` branch's wrap test (index.js:221-222): children exist and
the first child's tag is not `tbody`. -/
def headNotTbody : List Node → Bool
  | [] => false
  | h :: _ => h.tagName ≠ "tbody"

/-- How many direct children of a `tr` are invalid (will be wrapped). -/
def countInvalid (cs : List Node) : Nat :=
  (cs.filter (fun c => !(isCell c))).length

/-- The hidden `td` wrapper for an invalid `tr` child (index.js:268-272). -/
def hiddenTd (c : Node) : Node :=
  .mk "td" [("style", .style [("display", "none")])] [c] "" false none

/-- One step of the `tr` child map (index.js:264-275). -/
def wrapCell (c : Node) : Node := if isCell c then c else hiddenTd c

/-- The synthesized `tbody` (index.js:224): tag and children only. -/
def tbodyWrap (cs : List Node) : Node := .mk "tbody" [] cs "" false none

/-- The cell branch of `applyPaddingToCells` (index.js:238-249): parse or
copy the existing style, set `padding`, store the object back. -/
def setPaddingStyle (pad : String) (attrs : List (String × AttrVal)) :
    List (String × AttrVal) :=
  jsSet attrs "style" (.style (jsSet (styleOfAttrs attrs) "padding" pad))

mutual
/-- `applyPaddingToCells` (index.js:233-255): pad every `td`/`th` node of
the walked forest, recursing through all children. -/
def applyPaddingToCells (pad : String) : Node → Node
  | .mk t a c cond ic pr =>
    .mk t (if t = "td" ∨ t = "th" then setPaddingStyle pad a else a)
      (applyPaddingToCellsList pad c) cond ic pr

def applyPaddingToCellsList (pad : String) : List Node → List Node
  | [] => []
  | n :: ns => applyPaddingToCells pad n :: applyPaddingToCellsList pad ns
end

/-- The `cellpadding` handling of the `table` branch (index.js:229-261):
when the attribute is present and truthy, pad all `td`/`th` descendants
below `children` and delete the attribute; otherwise leave the node
untouched (a falsy value such as `""` is kept). -/
def cellpadApply : Node → Node
  | .mk t a c cond ic pr =>
    match jsGet a "cellpadding" with
    | some w =>
      if w.truthy then
        .mk t (jsDelete a "cellpadding")
          (applyPaddingToCellsList (addPxIfNeeded w.asString) c) cond ic pr
      else .mk t a c cond ic pr
    | none => .mk t a c cond ic pr

/-- Termination budget carried by one node: 2 for a table about to be
tbody-wrapped, 2 per invalid child of a `tr`. -/
def ownFlag : Node → Nat
  | .mk t _ c _ _ _ =>
    if t = "table" ∧ headNotTbody c then 2
    else if t = "tr" then 2 * countInvalid c else 0

mutual
/-- Total termination budget of a subtree. -/
def flagN : Node → Nat
  | .mk t a c cond ic pr => ownFlag (.mk t a c cond ic pr) + flagL c

def flagL : List Node → Nat
  | [] => 0
  | n :: ns => flagN n + flagL ns
end

/-- Termination measure for the table-repair pass on a node. -/
def mN (n : Node) : Nat := 2 * nSize n + flagN n

/-- Termination measure for the table-repair pass on a sibling list. -/
def mL (l : List Node) : Nat := 2 * lSize l + flagL l + 1

def nSize_pos (n : Node) : 1 ≤ nSize n := by
  cases n; simp [nSize]

def padCells_tagName (pad : String) (n : Node) :
    (applyPaddingToCells pad n).tagName = n.tagName := by
  cases n; simp [applyPaddingToCells, Node.tagName]

def padCells_size (pad : String) :
    (∀ n, nSize (applyPaddingToCells pad n) = nSize n) ∧
    (∀ l, lSize (applyPaddingToCellsList pad l) = lSize l) := by
  refine node_ind ?_ ?_ ?_
  · intro t a c cond ic pr hc
    simp [applyPaddingToCells, nSize, hc]
  · simp [applyPaddingToCellsList, lSize]
  · intro n ns hn hns
    simp [applyPaddingToCellsList, lSize, hn, hns]

def padCells_countInvalid (pad : String) (l : List Node) :
    countInvalid (applyPaddingToCellsList pad l) = countInvalid l := by
  induction l with
  | nil => rfl
  | cons n ns ih =>
    have hcell : isCell (applyPaddingToCells pad n) = isCell n := by
      simp [isCell, padCells_tagName]
    simp only [applyPaddingToCellsList, countInvalid, List.filter_cons,
      hcell] at ih ⊢
    split <;> simp_all [countInvalid]

def padCells_headNotTbody (pad : String) (l : List Node) :
    headNotTbody (applyPaddingToCellsList pad l) = headNotTbody l := by
  cases l with
  | nil => rfl
  | cons n ns => simp [applyPaddingToCellsList, headNotTbody, padCells_tagName]

def padCells_flag (pad : String) :
    (∀ n, flagN (applyPaddingToCells pad n) = flagN n) ∧
    (∀ l, flagL (applyPaddingToCellsList pad l) = flagL l) := by
  refine node_ind ?_ ?_ ?_
  · intro t a c cond ic pr hc
    simp [applyPaddingToCells, flagN, ownFlag, hc, padCells_headNotTbody,
      padCells_countInvalid]
  · simp [applyPaddingToCellsList, flagL]
  · intro n ns hn hns
    simp [applyPaddingToCellsList, flagL, hn, hns]

def cellpadApply_children (x : Node) :
    lSize (cellpadApply x).children = lSize x.children ∧
    flagL (cellpadApply x).children = flagL x.children := by
  cases x with
  | mk t a c cond ic pr =>
    simp only [cellpadApply]
    cases jsGet a "cellpadding" with
    | none => simp [Node.children]
    | some w =>
      by_cases hw : w.truthy <;>
        simp [hw, Node.children, (padCells_size _).2, (padCells_flag _).2]

def lSize_map_wrapCell (c : List Node) :
    lSize (c.map wrapCell) = lSize c + countInvalid c := by
  induction c with
  | nil => simp [countInvalid, lSize]
  | cons n ns ih =>
    by_cases hn : isCell n = true <;>
      simp [wrapCell, hn, lSize, nSize, countInvalid, List.filter_cons,
        ih, hiddenTd] <;>
      simp [countInvalid] at ih ⊢ <;> omega

def flagL_map_wrapCell (c : List Node) :
    flagL (c.map wrapCell) = flagL c := by
  induction c with
  | nil => simp
  | cons n ns ih =>
    by_cases hn : isCell n = true <;>
      simp [wrapCell, hn, flagL, flagN, ownFlag, hiddenTd, headNotTbody, ih]

/-- Decrease of the measure into the (possibly wrapped, possibly padded)
children of a `table` node. -/
def dec_table (t : String) (a : List (String × AttrVal)) (c : List Node)
    (cond : String) (ic : Bool) (pr : Option (List (String × AttrVal)))
    (ht : t = "table") :
    mL (cellpadApply (if headNotTbody c = true then
        Node.mk t a [tbodyWrap c] cond ic pr
      else Node.mk t a c cond ic pr)).children <
      mN (Node.mk t a c cond ic pr) := by
  subst ht
  by_cases hw : headNotTbody c = true
  · rw [if_pos hw]
    obtain ⟨h1, h2⟩ := cellpadApply_children (Node.mk "table" a [tbodyWrap c] cond ic pr)
    have e1 : lSize [tbodyWrap c] = 1 + lSize c := by simp [lSize, nSize, tbodyWrap]
    have e2 : flagL [tbodyWrap c] = flagL c := by
      simp [flagL, flagN, tbodyWrap, ownFlag, headNotTbody]
    simp only [mL, mN]
    rw [h1, h2]
    simp only [Node.children, nSize, flagN, ownFlag]
    rw [e1, e2]
    simp [hw]
    omega
  · rw [if_neg hw]
    obtain ⟨h1, h2⟩ := cellpadApply_children (Node.mk "table" a c cond ic pr)
    simp only [mL, mN]
    rw [h1, h2]
    simp only [Node.children, nSize, flagN, ownFlag]
    simp [hw]
    omega

/-- Decrease of the measure into the wrapped children of a `tr` node. -/
def dec_tr (t : String) (a : List (String × AttrVal)) (c : List Node)
    (cond : String) (ic : Bool) (pr : Option (List (String × AttrVal)))
    (ht : t = "tr") :
    mL (c.map wrapCell) < mN (Node.mk t a c cond ic pr) := by
  subst ht
  simp only [mL, mN, lSize_map_wrapCell, flagL_map_wrapCell, nSize, flagN,
    ownFlag]
  simp
  omega

/-- Decrease of the measure into unmodified children. -/
def dec_plain (t : String) (a : List (String × AttrVal)) (c : List Node)
    (cond : String) (ic : Bool) (pr : Option (List (String × AttrVal))) :
    mL c < mN (Node.mk t a c cond ic pr) := by
  simp only [mL, mN, nSize, flagN]
  omega

mutual
/-- `traverseAndProcessTableStructure` (index.js:209-281) as a pure rewrite
of one node.  For a `table`: wrap the children into a synthesized `tbody`
when the first child is not one (index.js:219-226), apply `cellpadding`
(index.js:229-261), then recurse into the current children — which visits
the synthesized `tbody` itself, whose children are the original ones.  For
a `tr`: wrap every invalid direct child in a hidden `td`, then recurse into
the new children.  Other nodes just recurse. -/
def traverseAndProcessTableStructure : Node → Node
  | .mk t a c cond ic pr =>
    if t = "table" then
      let n2 := cellpadApply (if headNotTbody c then
          Node.mk t a [tbodyWrap c] cond ic pr
        else Node.mk t a c cond ic pr)
      .mk n2.tagName n2.attributes
        (traverseAndProcessTableStructureList n2.children) n2.condition
        n2.isComponent n2.params
    else if t = "tr" then
      .mk t a (traverseAndProcessTableStructureList (c.map wrapCell)) cond ic pr
    else
      .mk t a (traverseAndProcessTableStructureList c) cond ic pr
termination_by n => mN n
decreasing_by
  · apply dec_table
    assumption
  · apply dec_tr
    assumption
  · apply dec_plain

/-- The pass over a sibling array (the source's `forEach` branch). -/
def traverseAndProcessTableStructureList : List Node → List Node
  | [] => []
  | n :: ns =>
    traverseAndProcessTableStructure n :: traverseAndProcessTableStructureList ns
termination_by l => mL l
decreasing_by
  · simp only [mN, mL, lSize, flagL]
    omega
  · have := nSize_pos n
    simp only [mL, lSize, flagL]
    omega
end

/-- The children list a repaired table's synthesized `tbody` ends up
holding, before recursion: the pre-repair children, padded when a truthy
`cellpadding` is present (the padding walk covers them, index.js:257-259). -/
def tablePaddedChildren : Node → List Node
  | .mk _ a c _ _ _ =>
    match jsGet a "cellpadding" with
    | some w =>
      if w.truthy then applyPaddingToCellsList (addPxIfNeeded w.asString) c
      else c
    | none => c

mutual
/-- Every `tr` node of the subtree has only `td`/`th` direct children. -/
def trShapeOK : Node → Bool
  | .mk t _ c _ _ _ =>
    (if t = "tr" then c.all isCell else true) && trShapesOK c

def trShapesOK : List Node → Bool
  | [] => true
  | n :: ns => trShapeOK n && trShapesOK ns
end

theorem cellpadApply_tagName (x : Node) :
    (cellpadApply x).tagName = x.tagName := by
  cases x with
  | mk t a c cond ic pr =>
    simp only [cellpadApply]
    cases jsGet a "cellpadding" with
    | none => simp [Node.tagName]
    | some w => by_cases hw : w.truthy <;> simp [hw, Node.tagName]

theorem tStruct_tagName (n : Node) :
    (traverseAndProcessTableStructure n).tagName = n.tagName := by
  cases n with
  | mk t a c cond ic pr =>
    rw [traverseAndProcessTableStructure]
    split_ifs <;> (try simp only [cellpadApply_tagName]) <;> rfl

theorem tStructList_map_tagName (l : List Node) :
    (traverseAndProcessTableStructureList l).map Node.tagName
      = l.map Node.tagName := by
  induction l with
  | nil => rw [traverseAndProcessTableStructureList]
  | cons n ns ih =>
    rw [traverseAndProcessTableStructureList]
    simp [tStruct_tagName, ih]

theorem padCellsList_map_tagName (pad : String) (l : List Node) :
    (applyPaddingToCellsList pad l).map Node.tagName = l.map Node.tagName := by
  induction l with
  | nil => rfl
  | cons n ns ih => simp [applyPaddingToCellsList, padCells_tagName, ih]

theorem tablePaddedChildren_map_tagName (n : Node) :
    (tablePaddedChildren n).map Node.tagName = n.children.map Node.tagName := by
  cases n with
  | mk t a c cond ic pr =>
    simp only [tablePaddedChildren, Node.children]
    cases jsGet a "cellpadding" with
    | none => rfl
    | some w =>
      by_cases hw : w.truthy <;> simp [hw, padCellsList_map_tagName]

theorem tStruct_tbodyWrap (cs : List Node) :
    traverseAndProcessTableStructure (tbodyWrap cs)
      = Node.mk "tbody" [] (traverseAndProcessTableStructureList cs)
          "" false none := by
  rw [tbodyWrap, traverseAndProcessTableStructure]
  simp

theorem padCells_tbodyWrap (pad : String) (cs : List Node) :
    applyPaddingToCells pad (tbodyWrap cs)
      = tbodyWrap (applyPaddingToCellsList pad cs) := by
  simp [tbodyWrap, applyPaddingToCells]

/-- C2: a `table` node whose children list is non-empty and whose first
child is not a `tbody` ends the Structural Table Repair pass with exactly
one child: a synthesized `tbody` (with empty attributes) that owns, in
order, exactly the table's pre-repair children — each as further processed
by the pass itself (the source mutates the very same node objects in
place; `cellpadding`, when present and truthy, also pads the `td`/`th`
descendants).  In particular the `tbody`'s children carry the pre-repair
children's tag names in the same order. -/
theorem tableRepair_tbody (n : Node) (c0 : Node) (cs : List Node)
    (ht : n.tagName = "table") (hc : n.children = c0 :: cs)
    (h2 : c0.tagName ≠ "tbody") :
    ∃ tb, (traverseAndProcessTableStructure n).children = [tb] ∧
      tb.tagName = "tbody" ∧ tb.attributes = [] ∧
      tb.children
        = traverseAndProcessTableStructureList (tablePaddedChildren n) ∧
      tb.children.map Node.tagName = n.children.map Node.tagName := by
  obtain ⟨t, a, c, cond, ic, pr⟩ := n
  simp only [Node.tagName, Node.children] at ht hc
  subst ht
  subst hc
  have hw : headNotTbody (c0 :: cs) = true := by
    simp [headNotTbody, h2]
  rw [traverseAndProcessTableStructure]
  rw [if_pos rfl, if_pos hw]
  rcases hcp : jsGet a "cellpadding" with _ | w
  · have hcell : cellpadApply
        (Node.mk "table" a [tbodyWrap (c0 :: cs)] cond ic pr)
        = Node.mk "table" a [tbodyWrap (c0 :: cs)] cond ic pr := by
      simp [cellpadApply, hcp]
    rw [hcell]
    refine ⟨Node.mk "tbody" []
        (traverseAndProcessTableStructureList (c0 :: cs)) "" false none,
      ?_, rfl, rfl, ?_, ?_⟩
    · simp only [Node.children]
      rw [traverseAndProcessTableStructureList,
        traverseAndProcessTableStructureList, tStruct_tbodyWrap]
    · simp [tablePaddedChildren, hcp, Node.children]
    · simp only [Node.children]
      rw [tStructList_map_tagName]
  · by_cases hwt : w.truthy
    · have hcell : cellpadApply
          (Node.mk "table" a [tbodyWrap (c0 :: cs)] cond ic pr)
          = Node.mk "table" (jsDelete a "cellpadding")
              [tbodyWrap (applyPaddingToCellsList
                (addPxIfNeeded w.asString) (c0 :: cs))] cond ic pr := by
        simp [cellpadApply, hcp, hwt, applyPaddingToCellsList,
          padCells_tbodyWrap]
      rw [hcell]
      refine ⟨Node.mk "tbody" []
          (traverseAndProcessTableStructureList (applyPaddingToCellsList
            (addPxIfNeeded w.asString) (c0 :: cs))) "" false none,
        ?_, rfl, rfl, ?_, ?_⟩
      · simp only [Node.children]
        rw [traverseAndProcessTableStructureList,
          traverseAndProcessTableStructureList, tStruct_tbodyWrap]
      · simp [tablePaddedChildren, hcp, hwt, Node.children]
      · simp only [Node.children]
        rw [tStructList_map_tagName, padCellsList_map_tagName]
    · have hcell : cellpadApply
          (Node.mk "table" a [tbodyWrap (c0 :: cs)] cond ic pr)
          = Node.mk "table" a [tbodyWrap (c0 :: cs)] cond ic pr := by
        simp [cellpadApply, hcp, hwt]
      rw [hcell]
      refine ⟨Node.mk "tbody" []
          (traverseAndProcessTableStructureList (c0 :: cs)) "" false none,
        ?_, rfl, rfl, ?_, ?_⟩
      · simp only [Node.children]
        rw [traverseAndProcessTableStructureList,
          traverseAndProcessTableStructureList, tStruct_tbodyWrap]
      · simp [tablePaddedChildren, hcp, hwt, Node.children]
      · simp only [Node.children]
        rw [tStructList_map_tagName]

/-- Witness for C2: a concrete table `<table><tr/></table>`. -/
theorem tableRepair_tbody_witness :
    ∃ tb, (traverseAndProcessTableStructure
        (Node.mk "table" [] [Node.mk "tr" [] [] "" false none]
          "" false none)).children = [tb] ∧
      tb.tagName = "tbody" ∧ tb.attributes = [] ∧
      tb.children = traverseAndProcessTableStructureList
        (tablePaddedChildren (Node.mk "table" []
          [Node.mk "tr" [] [] "" false none] "" false none)) ∧
      tb.children.map Node.tagName
        = (Node.mk "table" [] [Node.mk "tr" [] [] "" false none]
            "" false none).children.map Node.tagName :=
  tableRepair_tbody _ (Node.mk "tr" [] [] "" false none) [] rfl rfl
    (by decide)

theorem isCell_tStruct (n : Node) :
    isCell (traverseAndProcessTableStructure n) = isCell n := by
  simp [isCell, tStruct_tagName]

theorem all_isCell_tStructList (l : List Node) :
    (traverseAndProcessTableStructureList l).all isCell = l.all isCell := by
  induction l with
  | nil => rw [traverseAndProcessTableStructureList]
  | cons n ns ih =>
    rw [traverseAndProcessTableStructureList]
    simp [isCell_tStruct, ih]

theorem isCell_hiddenTd (x : Node) : isCell (hiddenTd x) = true := by
  simp [isCell, hiddenTd, Node.tagName]

theorem isCell_wrapCell (x : Node) : isCell (wrapCell x) = true := by
  by_cases hx : isCell x = true
  · simp only [wrapCell, hx, if_true]
  · simp [wrapCell, hx, isCell_hiddenTd]

theorem all_isCell_map_wrapCell (c : List Node) :
    (c.map wrapCell).all isCell = true := by
  induction c with
  | nil => rfl
  | cons n ns ih => simp [isCell_wrapCell, ih]

theorem tStructList_eq_map (l : List Node) :
    traverseAndProcessTableStructureList l
      = l.map traverseAndProcessTableStructure := by
  induction l with
  | nil =>
    rw [traverseAndProcessTableStructureList]
    rfl
  | cons n ns ih =>
    rw [traverseAndProcessTableStructureList, ih]
    rfl

theorem tStruct_hiddenTd (x : Node) :
    traverseAndProcessTableStructure (hiddenTd x)
      = Node.mk "td" [("style", .style [("display", "none")])]
          [traverseAndProcessTableStructure x] "" false none := by
  rw [hiddenTd, traverseAndProcessTableStructure]
  simp only [String.reduceEq, if_false, reduceIte]
  rw [tStructList_eq_map]
  rfl

/-- C3: after the Structural Table Repair pass (1) every `tr` node at any
depth of the output has only `td`/`th` direct children, and (2) a `tr`
node's direct children are rewritten positionally: a child that is already
a `td`/`th` passes through (recursively processed in place), any other
child is replaced at its position by a synthesized `td` with
`style.display = "none"` whose sole child is that original child
(recursively processed in place, as the source mutates the same object). -/
theorem trRepair_cells :
    (∀ n : Node, trShapeOK (traverseAndProcessTableStructure n) = true) ∧
    (∀ n : Node, n.tagName = "tr" →
      (traverseAndProcessTableStructure n).children
        = n.children.map (fun c =>
            if isCell c then traverseAndProcessTableStructure c
            else Node.mk "td" [("style", .style [("display", "none")])]
              [traverseAndProcessTableStructure c] "" false none)) := by
  constructor
  · refine (traverseAndProcessTableStructure.mutual_induct
      (fun n => trShapeOK (traverseAndProcessTableStructure n) = true)
      (fun l => trShapesOK (traverseAndProcessTableStructureList l) = true)
      ?_ ?_ ?_ ?_ ?_).1
    · intro a c cond ic pr n2 ih
      have ih2 : trShapesOK (traverseAndProcessTableStructureList
          (cellpadApply (if headNotTbody c = true then
            Node.mk "table" a [tbodyWrap c] cond ic pr
          else Node.mk "table" a c cond ic pr)).children) = true := by
        have h := ih
        unfold n2 at h
        simpa [dite_eq_ite] using h
      show trShapeOK (traverseAndProcessTableStructure
        (Node.mk "table" a c cond ic pr)) = true
      rw [traverseAndProcessTableStructure]
      simp only [reduceIte]
      rw [trShapeOK]
      have ht : (cellpadApply (if headNotTbody c = true then
          Node.mk "table" a [tbodyWrap c] cond ic pr
        else Node.mk "table" a c cond ic pr)).tagName = "table" := by
        rw [cellpadApply_tagName]
        split <;> rfl
      simp only [ht, String.reduceEq, if_false, Bool.true_and, reduceIte]
      exact ih2
    · intro a c cond ic pr _ ih
      show trShapeOK (traverseAndProcessTableStructure
        (Node.mk "tr" a c cond ic pr)) = true
      rw [traverseAndProcessTableStructure]
      simp only [String.reduceEq, if_false, reduceIte]
      rw [trShapeOK]
      simp [all_isCell_tStructList, all_isCell_map_wrapCell,
        isCell_wrapCell, ih]
    · intro t a c cond ic pr h1 h2 ih
      show trShapeOK (traverseAndProcessTableStructure
        (Node.mk t a c cond ic pr)) = true
      rw [traverseAndProcessTableStructure]
      rw [if_neg h1, if_neg h2]
      rw [trShapeOK]
      simp [h2, ih]
    · show trShapesOK (traverseAndProcessTableStructureList []) = true
      rw [traverseAndProcessTableStructureList]
      rw [trShapesOK]
    · intro n ns ihn ihns
      show trShapesOK (traverseAndProcessTableStructureList (n :: ns)) = true
      rw [traverseAndProcessTableStructureList]
      rw [trShapesOK]
      simp only [Bool.and_eq_true]
      exact ⟨ihn, ihns⟩
  · intro n htr
    obtain ⟨t, a, c, cond, ic, pr⟩ := n
    simp only [Node.tagName] at htr
    subst htr
    rw [traverseAndProcessTableStructure]
    simp only [String.reduceEq, if_false, reduceIte, Node.children]
    rw [tStructList_eq_map, List.map_map]
    apply List.map_congr_left
    intro x _
    by_cases hx : isCell x = true
    · simp [Function.comp, wrapCell, hx]
    · simp [Function.comp, wrapCell, hx, tStruct_hiddenTd]

/-- Witness for C3 at a concrete `tr` with one invalid (`div`) child and
one valid (`td`) child. -/
theorem trRepair_cells_witness :
    (traverseAndProcessTableStructure (Node.mk "tr" []
        [Node.mk "div" [] [] "" false none, Node.mk "td" [] [] "" false none]
        "" false none)).children
      = (Node.mk "tr" []
          [Node.mk "div" [] [] "" false none, Node.mk "td" [] [] "" false none]
          "" false none).children.map (fun c =>
            if isCell c then traverseAndProcessTableStructure c
            else Node.mk "td" [("style", .style [("display", "none")])]
              [traverseAndProcessTableStructure c] "" false none) :=
  trRepair_cells.2 _ rfl

/-! ## §4.5 Nesting Repair pass (`nestingRules` / `traverseAndFixInvalidNesting`)

The traversal (index.js:415-431) threads the parent as a call argument only
and never assigns a `parent` property on any node object — no statement in
the program writes `node.parent` — so the guard `parent.parent` read by the
fixes of rules 2 (`form` under `p`, index.js:365-375) and 3 (`form` under
`table`, index.js:376-389) always reads `undefined` and both relocations
are dead code.  The rule table is evaluated in order with every matching
rule applied; since rule 1 and rule 4 require `tagName` `form` and `td`
respectively, at most one effective fix fires per node, so the chain below
is equivalent to the source's loop over the table.  Only the parent's tag
name (and whether a parent exists) is consulted by any live guard, so the
parent context is carried as `Option String`. -/
mutual
/-- One node under parent context `p` (`none` for a top-level node; the
root-list branch of rule 4 replaces the node in `rootRef.elements`, which
is the same positional replacement the list traversal performs). -/
def traverseAndFixInvalidNesting (p : Option String) : Node → Node
  | .mk t a c cond ic pr =>
    let processed := Node.mk t a
      (traverseAndFixInvalidNestingList (some t) c) cond ic pr
    if p = some "tr" ∧ t = "form" then
      Node.mk "td" [] [processed] "" false none
    else if p = some "p" ∧ t = "form" then
      processed
    else if p = some "table" ∧ t = "form" then
      processed
    else if t = "td" ∧ ¬ p = some "tr" then
      Node.mk "table" [] [Node.mk "tr" [] [processed] "" false none]
        "" false none
    else processed

def traverseAndFixInvalidNestingList (p : Option String) :
    List Node → List Node
  | [] => []
  | n :: ns =>
    traverseAndFixInvalidNesting p n :: traverseAndFixInvalidNestingList p ns
end

/-- C6: a `td` node whose parent is not a `tr` — including a parentless
`td` in the root list — is replaced, at its position, by a synthesized
`table` whose sole child is a synthesized `tr` whose sole child is the
original `td` (with its own children recursively processed in place, as
the source mutates the same object; both wrappers carry empty
attributes).  The second conjunct restates this for the root list. -/
theorem nesting_orphan_td :
    (∀ (p : Option String) (n : Node), n.tagName = "td" → p ≠ some "tr" →
      traverseAndFixInvalidNesting p n
        = Node.mk "table" [] [Node.mk "tr" []
            [Node.mk "td" n.attributes
              (traverseAndFixInvalidNestingList (some "td") n.children)
              n.condition n.isComponent n.params] "" false none]
            "" false none) ∧
    (∀ (es : List Node) (i : Nat) (n : Node),
      es[i]? = some n → n.tagName = "td" →
      (traverseAndFixInvalidNestingList none es)[i]?
        = some (Node.mk "table" [] [Node.mk "tr" []
            [Node.mk "td" n.attributes
              (traverseAndFixInvalidNestingList (some "td") n.children)
              n.condition n.isComponent n.params] "" false none]
            "" false none)) := by
  have hfix : ∀ (p : Option String) (n : Node), n.tagName = "td" →
      p ≠ some "tr" →
      traverseAndFixInvalidNesting p n
        = Node.mk "table" [] [Node.mk "tr" []
            [Node.mk "td" n.attributes
              (traverseAndFixInvalidNestingList (some "td") n.children)
              n.condition n.isComponent n.params] "" false none]
            "" false none := by
    intro p n ht hp
    obtain ⟨t, a, c, cond, ic, pr⟩ := n
    simp only [Node.tagName] at ht
    subst ht
    rw [traverseAndFixInvalidNesting]
    simp only [Node.attributes, Node.children, Node.condition,
      Node.isComponent, Node.params]
    simp [hp]
  refine ⟨hfix, ?_⟩
  intro es i n hes ht
  have hmap : ∀ (q : Option String) (l : List Node),
      traverseAndFixInvalidNestingList q l
        = l.map (traverseAndFixInvalidNesting q) := by
    intro q l
    induction l with
    | nil => rw [traverseAndFixInvalidNestingList]; rfl
    | cons x xs ih => rw [traverseAndFixInvalidNestingList, ih]; rfl
  rw [hmap, List.getElem?_map, hes]
  exact congrArg some (hfix none n ht (by simp))

/-- Witness for C6: the spec's own calibration input, a bare top-level
`td`, becomes `table > tr > td`. -/
theorem nesting_orphan_td_witness :
    (traverseAndFixInvalidNestingList none
        [Node.mk "td" [] [] "" false none])[0]?
      = some (Node.mk "table" [] [Node.mk "tr" []
          [Node.mk "td" (Node.mk "td" [] [] "" false none).attributes
            (traverseAndFixInvalidNestingList (some "td")
              (Node.mk "td" [] [] "" false none).children)
            (Node.mk "td" [] [] "" false none).condition
            (Node.mk "td" [] [] "" false none).isComponent
            (Node.mk "td" [] [] "" false none).params] "" false none]
          "" false none) :=
  nesting_orphan_td.2 [Node.mk "td" [] [] "" false none] 0
    (Node.mk "td" [] [] "" false none) rfl rfl

/-- C10: the nesting-repair rules for `form` under `p` and `form` under
`table` never relocate anything: the source never assigns a `parent`
property on node objects (the traversal passes the parent as an argument
only), so the `parent.parent` guard in both fix actions always reads
`undefined` and the guarded relocation is unreachable.  Consequently a
`form` that is a direct child of a `p` or a `table` stays exactly in
place (only its own subtree is recursively processed), and the `p` or
`table` parent keeps its children list positionally intact. -/
theorem nesting_form_under_p_or_table_noop :
    (∀ (p : Option String) (n : Node), n.tagName = "form" →
      (p = some "p" ∨ p = some "table") →
      traverseAndFixInvalidNesting p n
        = Node.mk "form" n.attributes
            (traverseAndFixInvalidNestingList (some "form") n.children)
            n.condition n.isComponent n.params) ∧
    (∀ (q : Option String) (m : Node),
      m.tagName = "p" ∨ m.tagName = "table" →
      traverseAndFixInvalidNesting q m
        = Node.mk m.tagName m.attributes
            (traverseAndFixInvalidNestingList (some m.tagName) m.children)
            m.condition m.isComponent m.params) := by
  constructor
  · intro p n ht hp
    obtain ⟨t, a, c, cond, ic, pr⟩ := n
    simp only [Node.tagName] at ht
    subst ht
    rw [traverseAndFixInvalidNesting]
    simp only [Node.attributes, Node.children, Node.condition,
      Node.isComponent, Node.params]
    rcases hp with hp | hp <;> subst hp <;> simp
  · intro q m hm
    obtain ⟨t, a, c, cond, ic, pr⟩ := m
    simp only [Node.tagName] at hm
    have htf : ¬ t = "form" := by rcases hm with h | h <;> subst h <;> simp
    have htd : ¬ t = "td" := by rcases hm with h | h <;> subst h <;> simp
    rw [traverseAndFixInvalidNesting]
    simp only [Node.tagName, Node.attributes, Node.children, Node.condition,
      Node.isComponent, Node.params]
    simp [htf, htd]

/-- Witness for C10: a `form` directly under a `p` stays in place, and the
`p` node visited under any context keeps its children positionally. -/
theorem nesting_form_under_p_or_table_noop_witness :
    traverseAndFixInvalidNesting (some "p")
        (Node.mk "form" [] [] "" false none)
      = Node.mk "form" (Node.mk "form" [] [] "" false none).attributes
          (traverseAndFixInvalidNestingList (some "form")
            (Node.mk "form" [] [] "" false none).children)
          (Node.mk "form" [] [] "" false none).condition
          (Node.mk "form" [] [] "" false none).isComponent
          (Node.mk "form" [] [] "" false none).params ∧
    traverseAndFixInvalidNesting none (Node.mk "p" []
        [Node.mk "form" [] [] "" false none] "" false none)
      = Node.mk (Node.mk "p" [] [Node.mk "form" [] [] "" false none]
            "" false none).tagName
          (Node.mk "p" [] [Node.mk "form" [] [] "" false none]
            "" false none).attributes
          (traverseAndFixInvalidNestingList (some (Node.mk "p" []
            [Node.mk "form" [] [] "" false none] "" false none).tagName)
            (Node.mk "p" [] [Node.mk "form" [] [] "" false none]
              "" false none).children)
          (Node.mk "p" [] [Node.mk "form" [] [] "" false none]
            "" false none).condition
          (Node.mk "p" [] [Node.mk "form" [] [] "" false none]
            "" false none).isComponent
          (Node.mk "p" [] [Node.mk "form" [] [] "" false none]
            "" false none).params :=
  ⟨nesting_form_under_p_or_table_noop.1 (some "p")
      (Node.mk "form" [] [] "" false none) rfl (Or.inl rfl),
    nesting_form_under_p_or_table_noop.2 none
      (Node.mk "p" [] [Node.mk "form" [] [] "" false none] "" false none)
      (Or.inl rfl)⟩

/-! ## §4.2 Auxiliary-Node Consolidation pass (`traverseAndTransformObjects`) -/

/-- The value stored for one `<param>`: `value || ""` — a falsy value
(absent or the empty string) becomes `""`. -/
def paramValue : Option AttrVal → AttrVal
  | some v => if v.truthy then v else .str ""
  | none => .str ""

/-- Collect `<param>` children of an `<object>` (index.js:46-57): for every
child tagged `param` whose attributes hold a truthy `name`, record
`params[name] = value || ""` (assignment order; a repeated name keeps its
first position with the later value). -/
def collectParams (cs : List Node) : List (String × AttrVal) :=
  cs.foldl
    (fun acc ch =>
      if ch.tagName = "param" then
        match jsGet ch.attributes "name" with
        | some nv =>
          if nv.truthy then
            jsSet acc nv.asString (paramValue (jsGet ch.attributes "value"))
          else acc
        | none => acc
      else acc) []

/-- The synthetic `{ params: ... }` wrapper child (index.js:60). -/
def paramsWrapper (m : List (String × AttrVal)) : Node :=
  .mk "" [] [] "" false (some m)

mutual
/-- `traverseAndTransformObjects` (index.js:30-62): children are processed
first (index.js:40-42); then an `object` node becomes an
`ActiveXPlaceholder` component whose sole child is the assembled parameter
map (attributes and other fields are kept). -/
def traverseAndTransformObjects : Node → Node
  | .mk t a c cond ic pr =>
    let c' := traverseAndTransformObjectsList c
    if t = "object" then
      Node.mk "ActiveXPlaceholder" a [paramsWrapper (collectParams c')]
        cond true pr
    else Node.mk t a c' cond ic pr

def traverseAndTransformObjectsList : List Node → List Node
  | [] => []
  | n :: ns =>
    traverseAndTransformObjects n :: traverseAndTransformObjectsList ns
end

/-! ## §4.3 Expression Rewrite pass (`traverseAndReplaceSessionGetAttribute`)

The rewrite implements the global replacement of the pattern
`session\.getAttribute\((.*?)\)` (lazy capture of non-newline characters up
to the first closing parenthesis) by `sessionStorage.getItem('<key>')`,
where the key is the captured text trimmed and stripped of one layer of
matching surrounding quotes (index.js:299-312).  When the lazy capture
finds no closing parenthesis (or a newline intervenes, which `.` does not
match), the engine advances one position and retries. -/

/-- Split off the lazy capture: the characters before the first `)`,
provided no newline occurs first; `none` when there is no match. -/
def findClose : List Char → Option (List Char × List Char)
  | [] => none
  | c :: rest =>
    if c = ')' then some ([], rest)
    else if c = Char.ofNat 10 ∨ c = Char.ofNat 13 then none
    else
      match findClose rest with
      | some (cap, after) => some (c :: cap, after)
      | none => none

def findClose_length : ∀ (l : List Char) (cap after : List Char),
    findClose l = some (cap, after) → after.length < l.length := by
  intro l
  induction l with
  | nil => intro cap after h; simp [findClose] at h
  | cons c rest ih =>
    intro cap after h
    rw [findClose] at h
    split_ifs at h
    · simp at h
      obtain ⟨h1, h2⟩ := h
      simp [← h2, List.length_cons]
    · rcases hr : findClose rest with _ | ⟨cap2, after2⟩ <;> rw [hr] at h
      · simp at h
      · simp at h
        have hlen := ih cap2 after2 hr
        obtain ⟨h1, h2⟩ := h
        simp [← h2, List.length_cons]
        omega

/-- The literal searched by the `includes` guard (index.js:299). -/
def sessionIncl : List Char := "session.getAttribute".data

/-- The literal head of the regex pattern `session\.getAttribute\(`. -/
def sessionPat : List Char := "session.getAttribute(".data

/-- One layer of matching surrounding quotes is stripped
(index.js:305-307); for a one-character string JS `substring(1, 0)` swaps
its arguments and returns the string unchanged, hence the length guard. -/
def stripOneQuoteLayer (cs : List Char) : List Char :=
  if 2 ≤ cs.length ∧
      ((cs.head? = some (Char.ofNat 34) ∧ cs.getLast? = some (Char.ofNat 34))
        ∨ (cs.head? = some (Char.ofNat 39)
            ∧ cs.getLast? = some (Char.ofNat 39))) then
    (cs.drop 1).dropLast
  else cs

/-- The replacement text for one match: `sessionStorage.getItem('<key>')`
with the captured argument trimmed and unquoted (index.js:303-308). -/
def sessionReplacement (cap : List Char) : List Char :=
  "sessionStorage.getItem(".data ++ [Char.ofNat 39]
    ++ stripOneQuoteLayer (jsTrim (String.mk cap)).data
    ++ [Char.ofNat 39, ')']

/-- JS `String.prototype.includes` over character lists. -/
def hasSub (pat : List Char) : List Char → Bool
  | [] => decide (pat = [])
  | c :: rest => pat.isPrefixOf (c :: rest) || hasSub pat rest

/-- The global regex replacement: at each position, match the literal
pattern head and the lazy non-newline capture up to `)`; on success emit
the replacement and continue after the match, otherwise advance one
character. -/
def rewriteSessionChars : List Char → List Char
  | [] => []
  | c :: rest =>
    if sessionPat.isPrefixOf (c :: rest) then
      match hfc : findClose ((c :: rest).drop sessionPat.length) with
      | some (cap, after) =>
        sessionReplacement cap ++ rewriteSessionChars after
      | none => c :: rewriteSessionChars rest
    else c :: rewriteSessionChars rest
termination_by l => l.length
decreasing_by
  · have hlt := findClose_length _ _ _ hfc
    have hp : sessionPat.length = 21 := rfl
    simp only [List.length_drop, hp, List.length_cons] at hlt ⊢
    omega
  · simp [List.length_cons]
  · simp [List.length_cons]

mutual
/-- `traverseAndReplaceSessionGetAttribute` (index.js:289-317): when the
condition string contains `session.getAttribute`, apply the global
rewrite; then recurse into the children. -/
def traverseAndReplaceSessionGetAttribute : Node → Node
  | .mk t a c cond ic pr =>
    Node.mk t a (traverseAndReplaceSessionGetAttributeList c)
      (if hasSub sessionIncl cond.data then
        String.mk (rewriteSessionChars cond.data)
      else cond) ic pr

def traverseAndReplaceSessionGetAttributeList : List Node → List Node
  | [] => []
  | n :: ns =>
    traverseAndReplaceSessionGetAttribute n
      :: traverseAndReplaceSessionGetAttributeList ns
end

/-! ## §4.7 The pipeline and the parse-validate-regenerate loop
(`generateAndValidateJson`) -/

/-- The six normalization passes in the source's fixed order
(index.js:450-467): attribute lowering, object consolidation, expression
rewrite, table repair, nesting repair (parent `null`, root reference the
list itself), filter & flatten. -/
def normalizeElements (es : List Node) : List Node :=
  processJsonElements
    (traverseAndFixInvalidNestingList none
      (traverseAndProcessTableStructureList
        (traverseAndReplaceSessionGetAttributeList
          (traverseAndTransformObjectsList
            (traverseAndApplyPresentationalAttributesList es)))))

/-- The parsed root object `{ elements: [...] }` (§6). -/
structure RootObj where
  elements : List Node
deriving DecidableEq

/-- The pipeline applied to a parsed root. -/
def normalizeRoot (r : RootObj) : RootObj := ⟨normalizeElements r.elements⟩

/-- The retry loop of `generateAndValidateJson` (index.js:441-499),
abstracted over the outcome of parsing each attempt's candidate text:
`cands k` is `some root` when the `k`-th candidate (the initial content
for `k = 1`, the `k - 1`-st regeneration otherwise) parses as JSON, and
`none` when `JSON.parse` throws.  A parse success runs the six passes and
returns; a parse failure on the last allowed attempt raises the terminal
error (modelled as `Except.error ()`); otherwise the loop asks the
generator for the next candidate and retries.  Serialization of the
returned root is external formatting and is not modelled. -/
def gavLoop (cands : Nat → Option RootObj) (attempt maxAttempts : Nat) :
    Except Unit RootObj :=
  match cands attempt with
  | some r => .ok (normalizeRoot r)
  | none =>
    if attempt ≥ maxAttempts then .error ()
    else gavLoop cands (attempt + 1) maxAttempts
termination_by maxAttempts - attempt

/-- `generateAndValidateJson` with the source's `maxAttempts = 3`
(index.js:443), starting at attempt 1. -/
def generateAndValidateJson (cands : Nat → Option RootObj) :
    Except Unit RootObj :=
  gavLoop cands 1 3

/-- C7: the parse-validate-regenerate loop with ceiling 3.  If the first
candidate that parses is attempt `k ≤ 3` (all earlier candidates failing
to parse), the loop returns exactly the six §4.1-§4.6 passes applied once
each, in the fixed source order — attribute lowering, object
consolidation, expression rewrite, table repair, nesting repair, filter &
flatten — to that candidate; no pass runs on any failed attempt (failed
attempts only request the next candidate).  If all three candidates fail
to parse, the loop raises the terminal error instead of returning a
partial result. -/
theorem generateAndValidateJson_spec :
    (∀ (cands : Nat → Option RootObj) (k : Nat) (r : RootObj),
      1 ≤ k → k ≤ 3 → cands k = some r →
      (∀ j, 1 ≤ j → j < k → cands j = none) →
      generateAndValidateJson cands
        = .ok ⟨processJsonElements
            (traverseAndFixInvalidNestingList none
              (traverseAndProcessTableStructureList
                (traverseAndReplaceSessionGetAttributeList
                  (traverseAndTransformObjectsList
                    (traverseAndApplyPresentationalAttributesList
                      r.elements)))))⟩) ∧
    (∀ cands : Nat → Option RootObj,
      cands 1 = none → cands 2 = none → cands 3 = none →
      generateAndValidateJson cands = .error ()) := by
  constructor
  · intro cands k r hk1 hk3 hck hprev
    interval_cases k
    · unfold generateAndValidateJson
      rw [gavLoop, hck]
      rfl
    · unfold generateAndValidateJson
      rw [gavLoop, hprev 1 (by omega) (by omega), if_neg (by omega),
        gavLoop, hck]
      rfl
    · unfold generateAndValidateJson
      rw [gavLoop, hprev 1 (by omega) (by omega), if_neg (by omega),
        gavLoop, hprev 2 (by omega) (by omega), if_neg (by omega),
        gavLoop, hck]
      rfl
  · intro cands h1 h2 h3
    unfold generateAndValidateJson
    rw [gavLoop, h1, if_neg (by omega), gavLoop, h2, if_neg (by omega),
      gavLoop, h3, if_pos (by omega)]

/-- Witness for C7: a generator stub failing twice then succeeding on the
third attempt returns the normalized third candidate; a stub failing on
all three attempts raises the terminal error. -/
theorem generateAndValidateJson_spec_witness :
    generateAndValidateJson
        (fun k => if k = 3 then some (RootObj.mk []) else none)
      = .ok ⟨processJsonElements
          (traverseAndFixInvalidNestingList none
            (traverseAndProcessTableStructureList
              (traverseAndReplaceSessionGetAttributeList
                (traverseAndTransformObjectsList
                  (traverseAndApplyPresentationalAttributesList
                    (RootObj.mk []).elements)))))⟩ ∧
    generateAndValidateJson (fun _ => none) = .error () :=
  ⟨generateAndValidateJson_spec.1 _ 3 (RootObj.mk []) (by omega) (by omega)
      rfl (fun j hj1 hj3 => by interval_cases j <;> rfl),
    generateAndValidateJson_spec.2 _ rfl rfl rfl⟩

/-! ## §4.8 Bounded Task Executor (`runWithConcurrencyLimit` /
`handleToolCalls`, src/utils/common.js shown in src/README.md)

Each task of `handleToolCalls` is an async closure that catches every
failure internally and always resolves to a record `{toolName, toolCallId,
result}` or `{toolName, toolCallId, error}`; the record depends only on
that task's own tool call.  `runWithConcurrencyLimit` starts the tasks in
submission order, keeps at most `limit` in flight, and resolves
`Promise.all` over the promise list pushed in submission order; the limit
affects scheduling time only, never a settled value, so its denotation is
the submission-ordered list of the tasks' settlement values.  The
two-stage argument parsing (lenient parse, then delegated repair) and the
tool body are external suspending calls, abstracted as `parseArgs` and the
per-name tool functions; a rejection anywhere inside the task's `try` is
caught into the record's `error` field (`error.message`). -/

/-- One tool call of the incoming list (`toolCall.id`,
`toolCall.function.name`, `toolCall.function.arguments`). -/
structure ToolCall where
  id : String
  name : String
  arguments : String
deriving DecidableEq, Repr

instance {ε β : Type} [DecidableEq ε] [DecidableEq β] :
    DecidableEq (Except ε β) := fun x y =>
  match x, y with
  | .ok a, .ok b =>
    if h : a = b then isTrue (by rw [h])
    else isFalse (by intro hh; injection hh; contradiction)
  | .error a, .error b =>
    if h : a = b then isTrue (by rw [h])
    else isFalse (by intro hh; injection hh; contradiction)
  | .ok _, .error _ => isFalse (by intro hh; exact Except.noConfusion hh)
  | .error _, .ok _ => isFalse (by intro hh; exact Except.noConfusion hh)

/-- The settled record of one task: `toolName`, `toolCallId`, and either
the stringified result or the error message. -/
structure ToolOutcome where
  toolName : String
  toolCallId : String
  outcome : Except String String
deriving DecidableEq, Repr

/-- The body of one task (README.md:225-278): an unknown tool name yields
the per-task error record immediately; otherwise the argument bundle is
parsed (with its delegated repair folded into `parseArgs`) and the tool
runs, any failure being caught into the record. -/
def runToolCall {α : Type} (availableTools : String → Option (α → Except String String))
    (parseArgs : String → Except String α) (tc : ToolCall) : ToolOutcome :=
  match availableTools tc.name with
  | none =>
    ⟨tc.name, tc.id,
      .error ("工具 " ++ String.mk [Char.ofNat 39] ++ tc.name
        ++ String.mk [Char.ofNat 39] ++ " 不存在。")⟩
  | some tool =>
    match parseArgs tc.arguments with
    | .error e => ⟨tc.name, tc.id, .error e⟩
    | .ok args =>
      match tool args with
      | .ok r => ⟨tc.name, tc.id, .ok r⟩
      | .error e => ⟨tc.name, tc.id, .error e⟩

/-- Denotation of `runWithConcurrencyLimit` (README.md:203-217): the
settlement values of the tasks, in submission order (the `limit` bounds
how many run at once but cannot change any task's value or its slot). -/
def runWithConcurrencyLimit {α : Type} (tasks : List (Unit → α))
    (_limit : Nat) : List α :=
  tasks.map (fun t => t ())

/-- `MAX_CONCURRENT = 2` (README.md:200). -/
def MAX_CONCURRENT : Nat := 2

/-- `handleToolCalls` (README.md:219-285): wrap every call into a task and
run the batch through the limiter. -/
def handleToolCalls {α : Type}
    (availableTools : String → Option (α → Except String String))
    (parseArgs : String → Except String α) (toolCalls : List ToolCall) :
    List ToolOutcome :=
  if toolCalls = [] then []
  else
    runWithConcurrencyLimit
      (toolCalls.map (fun tc _ => runToolCall availableTools parseArgs tc))
      MAX_CONCURRENT

/-- C8: the bounded executor yields exactly one settled record per input
call — the overall result exists only once every task has settled and has
the same length as the input — and the record at position `i` is a
function of call `i` alone (`runToolCall` of that very call), so one
call's failure never cancels or alters any other call's record; each
record is correlated with its call by `toolCallId`, not by completion
time. -/
theorem handleToolCalls_spec {α : Type}
    (availableTools : String → Option (α → Except String String))
    (parseArgs : String → Except String α) (toolCalls : List ToolCall) :
    (handleToolCalls availableTools parseArgs toolCalls).length
        = toolCalls.length ∧
    (∀ (i : Nat) (tc : ToolCall), toolCalls[i]? = some tc →
      (handleToolCalls availableTools parseArgs toolCalls)[i]?
        = some (runToolCall availableTools parseArgs tc)) ∧
    (∀ (i : Nat) (tc : ToolCall), toolCalls[i]? = some tc →
      ((handleToolCalls availableTools parseArgs toolCalls)[i]?).map
          ToolOutcome.toolCallId = some tc.id) := by
  have hmain : ∀ (i : Nat) (tc : ToolCall), toolCalls[i]? = some tc →
      (handleToolCalls availableTools parseArgs toolCalls)[i]?
        = some (runToolCall availableTools parseArgs tc) := by
    intro i tc hi
    by_cases hnil : toolCalls = []
    · subst hnil
      simp at hi
    · simp only [handleToolCalls, hnil, if_false, reduceIte,
        runWithConcurrencyLimit, List.map_map, List.getElem?_map, hi]
      rfl
  refine ⟨?_, hmain, ?_⟩
  · by_cases hnil : toolCalls = []
    · subst hnil
      simp [handleToolCalls]
    · simp [handleToolCalls, hnil, runWithConcurrencyLimit]
  · intro i tc hi
    rw [hmain i tc hi]
    have hid : (runToolCall availableTools parseArgs tc).toolCallId
        = tc.id := by
      rw [runToolCall]
      split
      · rfl
      · split
        · rfl
        · split <;> rfl
    exact congrArg some hid

/-- Witness for C8: two calls, the second naming an unknown tool; both
records are present, the failing call's record is its own error record,
and the first record is correlated by `toolCallId`. -/
theorem handleToolCalls_spec_witness :
    (handleToolCalls
        (fun n => if n = "convertJspSnippet"
          then some (fun _ : String => Except.ok "converted") else none)
        (fun s => Except.ok s)
        [⟨"call_1", "convertJspSnippet", "{}"⟩,
          ⟨"call_2", "missingTool", "{}"⟩]).length = 2 ∧
    (handleToolCalls
        (fun n => if n = "convertJspSnippet"
          then some (fun _ : String => Except.ok "converted") else none)
        (fun s => Except.ok s)
        [⟨"call_1", "convertJspSnippet", "{}"⟩,
          ⟨"call_2", "missingTool", "{}"⟩])[1]?
      = some (runToolCall
          (fun n => if n = "convertJspSnippet"
            then some (fun _ : String => Except.ok "converted") else none)
          (fun s => Except.ok s) ⟨"call_2", "missingTool", "{}"⟩) ∧
    ((handleToolCalls
        (fun n => if n = "convertJspSnippet"
          then some (fun _ : String => Except.ok "converted") else none)
        (fun s => Except.ok s)
        [⟨"call_1", "convertJspSnippet", "{}"⟩,
          ⟨"call_2", "missingTool", "{}"⟩])[0]?).map ToolOutcome.toolCallId
      = some "call_1" :=
  ⟨(handleToolCalls_spec _ _ _).1,
    (handleToolCalls_spec _ _ _).2.1 1 _ rfl,
    (handleToolCalls_spec _ _ _).2.2 0 ⟨"call_1", "convertJspSnippet", "{}"⟩ rfl⟩

/-! ## C9: the full pipeline is not idempotent — orphan-`td` evaluation -/

theorem normalize_td_step1 :
    normalizeElements [Node.mk "td" [] [] "" false none]
      = [Node.mk "table" [] [Node.mk "tr" []
          [Node.mk "td" [] [] "" false none] "" false none] "" false none] := by
  unfold normalizeElements
  have e1 : traverseAndApplyPresentationalAttributesList
      [Node.mk "td" [] [] "" false none]
      = [Node.mk "td" [] [] "" false none] := by decide
  rw [e1]
  have e2 : traverseAndTransformObjectsList
      [Node.mk "td" [] [] "" false none]
      = [Node.mk "td" [] [] "" false none] := by decide
  rw [e2]
  have e3 : traverseAndReplaceSessionGetAttributeList
      [Node.mk "td" [] [] "" false none]
      = [Node.mk "td" [] [] "" false none] := by decide
  rw [e3]
  have e4 : traverseAndProcessTableStructureList
      [Node.mk "td" [] [] "" false none]
      = [Node.mk "td" [] [] "" false none] := by
    simp [traverseAndProcessTableStructure,
      traverseAndProcessTableStructureList, Node.attributes, Node.condition,
      Node.isComponent, Node.params, Node.children, Node.tagName]
  rw [e4]
  have e5 : traverseAndFixInvalidNestingList none
      [Node.mk "td" [] [] "" false none]
      = [Node.mk "table" [] [Node.mk "tr" []
          [Node.mk "td" [] [] "" false none] "" false none] "" false none] := by
    decide
  rw [e5]
  simp [processJsonElements, tagsToRemove, tagsToUnwrap]

theorem normalize_td_step2 :
    normalizeElements [Node.mk "table" [] [Node.mk "tr" []
        [Node.mk "td" [] [] "" false none] "" false none] "" false none]
      = [Node.mk "table" [] [Node.mk "tbody" [] [Node.mk "tr" []
          [Node.mk "td" [] [] "" false none] "" false none] "" false none]
          "" false none] := by
  unfold normalizeElements
  have e1 : traverseAndApplyPresentationalAttributesList
      [Node.mk "table" [] [Node.mk "tr" []
        [Node.mk "td" [] [] "" false none] "" false none] "" false none]
      = [Node.mk "table" [] [Node.mk "tr" []
          [Node.mk "td" [] [] "" false none] "" false none] "" false none] := by
    decide
  rw [e1]
  have e2 : traverseAndTransformObjectsList
      [Node.mk "table" [] [Node.mk "tr" []
        [Node.mk "td" [] [] "" false none] "" false none] "" false none]
      = [Node.mk "table" [] [Node.mk "tr" []
          [Node.mk "td" [] [] "" false none] "" false none] "" false none] := by
    decide
  rw [e2]
  have e3 : traverseAndReplaceSessionGetAttributeList
      [Node.mk "table" [] [Node.mk "tr" []
        [Node.mk "td" [] [] "" false none] "" false none] "" false none]
      = [Node.mk "table" [] [Node.mk "tr" []
          [Node.mk "td" [] [] "" false none] "" false none] "" false none] := by
    decide
  rw [e3]
  have e4 : traverseAndProcessTableStructureList
      [Node.mk "table" [] [Node.mk "tr" []
        [Node.mk "td" [] [] "" false none] "" false none] "" false none]
      = [Node.mk "table" [] [Node.mk "tbody" [] [Node.mk "tr" []
          [Node.mk "td" [] [] "" false none] "" false none] "" false none]
          "" false none] := by
    simp [traverseAndProcessTableStructure,
      traverseAndProcessTableStructureList, cellpadApply, jsGet,
      headNotTbody, tbodyWrap, wrapCell, isCell, Node.attributes,
      Node.condition, Node.isComponent, Node.params, Node.children,
      Node.tagName]
  rw [e4]
  have e5 : traverseAndFixInvalidNestingList none
      [Node.mk "table" [] [Node.mk "tbody" [] [Node.mk "tr" []
        [Node.mk "td" [] [] "" false none] "" false none] "" false none]
        "" false none]
      = [Node.mk "table" [] [Node.mk "tbody" [] [Node.mk "tr" []
          [Node.mk "td" [] [] "" false none] "" false none] "" false none]
          "" false none] := by
    decide
  rw [e5]
  simp [processJsonElements, tagsToRemove, tagsToUnwrap]

theorem normalize_td_step3 :
    normalizeElements [Node.mk "table" [] [Node.mk "tbody" []
        [Node.mk "tr" [] [Node.mk "td" [] [] "" false none] "" false none]
        "" false none] "" false none]
      = [Node.mk "table" [] [Node.mk "tbody" [] [Node.mk "tr" []
          [Node.mk "td" [] [] "" false none] "" false none] "" false none]
          "" false none] := by
  unfold normalizeElements
  have e1 : traverseAndApplyPresentationalAttributesList
      [Node.mk "table" [] [Node.mk "tbody" [] [Node.mk "tr" []
        [Node.mk "td" [] [] "" false none] "" false none] "" false none]
        "" false none]
      = [Node.mk "table" [] [Node.mk "tbody" [] [Node.mk "tr" []
          [Node.mk "td" [] [] "" false none] "" false none] "" false none]
          "" false none] := by
    decide
  rw [e1]
  have e2 : traverseAndTransformObjectsList
      [Node.mk "table" [] [Node.mk "tbody" [] [Node.mk "tr" []
        [Node.mk "td" [] [] "" false none] "" false none] "" false none]
        "" false none]
      = [Node.mk "table" [] [Node.mk "tbody" [] [Node.mk "tr" []
          [Node.mk "td" [] [] "" false none] "" false none] "" false none]
          "" false none] := by
    decide
  rw [e2]
  have e3 : traverseAndReplaceSessionGetAttributeList
      [Node.mk "table" [] [Node.mk "tbody" [] [Node.mk "tr" []
        [Node.mk "td" [] [] "" false none] "" false none] "" false none]
        "" false none]
      = [Node.mk "table" [] [Node.mk "tbody" [] [Node.mk "tr" []
          [Node.mk "td" [] [] "" false none] "" false none] "" false none]
          "" false none] := by
    decide
  rw [e3]
  have e4 : traverseAndProcessTableStructureList
      [Node.mk "table" [] [Node.mk "tbody" [] [Node.mk "tr" []
        [Node.mk "td" [] [] "" false none] "" false none] "" false none]
        "" false none]
      = [Node.mk "table" [] [Node.mk "tbody" [] [Node.mk "tr" []
          [Node.mk "td" [] [] "" false none] "" false none] "" false none]
          "" false none] := by
    simp [traverseAndProcessTableStructure,
      traverseAndProcessTableStructureList, cellpadApply, jsGet,
      headNotTbody, tbodyWrap, wrapCell, isCell, Node.attributes,
      Node.condition, Node.isComponent, Node.params, Node.children,
      Node.tagName]
  rw [e4]
  have e5 : traverseAndFixInvalidNestingList none
      [Node.mk "table" [] [Node.mk "tbody" [] [Node.mk "tr" []
        [Node.mk "td" [] [] "" false none] "" false none] "" false none]
        "" false none]
      = [Node.mk "table" [] [Node.mk "tbody" [] [Node.mk "tr" []
          [Node.mk "td" [] [] "" false none] "" false none] "" false none]
          "" false none] := by
    decide
  rw [e5]
  simp [processJsonElements, tagsToRemove, tagsToUnwrap]

/-- C9, counterexample: the pipeline is not idempotent.  On the orphan-`td`
input the first run's Nesting Repair synthesizes `table > tr > td` — but
Structural Table Repair has already run by then, so the synthesized table
lacks a `tbody`, and the second run inserts one: the second output differs
from the first. -/
theorem pipeline_not_idempotent_orphan_td :
    normalizeElements (normalizeElements [Node.mk "td" [] [] "" false none])
      ≠ normalizeElements [Node.mk "td" [] [] "" false none] := by
  rw [normalize_td_step1, normalize_td_step2]
  decide

/-- C9, amended: the pipeline is not idempotent, because Nesting Repair
runs after Structural Table Repair and its synthesized `table` wrappers
lack a `tbody`; a second application wraps their children in a `tbody`.
On the orphan-`td` input the first run yields `table > tr > td`, the
second run yields `table > tbody > tr > td`, and the pipeline is stable
from the second application on (a third run returns the second run's
output unchanged).  The documented limitation for a `table` with a leading
`tbody` and non-`tbody` later siblings is unaffected. -/
theorem pipeline_second_run_adds_tbody :
    normalizeElements [Node.mk "td" [] [] "" false none]
      = [Node.mk "table" [] [Node.mk "tr" []
          [Node.mk "td" [] [] "" false none] "" false none] "" false none] ∧
    normalizeElements (normalizeElements [Node.mk "td" [] [] "" false none])
      = [Node.mk "table" [] [Node.mk "tbody" [] [Node.mk "tr" []
          [Node.mk "td" [] [] "" false none] "" false none] "" false none]
          "" false none] ∧
    normalizeElements (normalizeElements (normalizeElements
        [Node.mk "td" [] [] "" false none]))
      = normalizeElements (normalizeElements
          [Node.mk "td" [] [] "" false none]) := by
  refine ⟨normalize_td_step1, ?_, ?_⟩
  · rw [normalize_td_step1, normalize_td_step2]
  · rw [normalize_td_step1, normalize_td_step2, normalize_td_step3]
